import Mathlib

/-!
Verification of the argot test-step library (msackman/argot).

The Go sources are shallowly embedded: a test step is a named state
transformer that may fail (Go errors become `Option String`, `none`
standing for a nil error), and step sequences thread the state through the
steps in order.  The repository snapshot contains several revisions of the
same files; the current revision (the one exercised by argot_test.go) is
embedded in namespace `Argot`, the older `Steps.Test` variant of the
sequence runner in namespace `ArgotV2`, and the older `HttpCall.Reset`
variant from argot.go in namespace `ArgotV0`.
-/

/-- A Go error: `none` is the nil error, `some msg` a non-nil error with
message `msg`. -/
abbrev GoErr := Option String

namespace Argot

/-- Embedding of the `Step` interface together with `NamedStep`: a step has
a display name (`NamedStep.String()`) and an effectful action
(`Step.Go() error`), modelled as a transformer of an explicit state `σ`
returning the new state and the error. -/
structure Step (σ : Type) where
  name : String
  go : σ → σ × GoErr

/-- `type Steps []Step`. -/
abbrev Steps (σ : Type) := List (Step σ)

/-- Embedding of the loop body of `Steps.run` (current revision):

    for idx, step := range ss {
        err = step.Go()
        if err != nil { return ss[:idx+1], err }
    }
    return ss, nil

`full` is the original slice `ss`, the list argument is the part of the
slice not yet iterated, `idx` the current index.  Besides the returned
slice and error we also return the final state, which records exactly the
side effects of the steps that were executed. -/
def runFrom (full : Steps σ) : Steps σ → Nat → σ → Steps σ × GoErr × σ
  | [], _, s => (full, none, s)
  | step :: rest, idx, s =>
    match step.go s with
    | (s1, some e) => (full.take (idx + 1), some e, s1)
    | (s1, none) => runFrom full rest (idx + 1) s1

/-- `func (ss Steps) run() (Steps, error)` of the current revision. -/
def Steps.run (ss : Steps σ) (s : σ) : Steps σ × GoErr × σ :=
  runFrom ss ss 0 s

/-- `func (ss Steps) Go() error` of the current revision: runs the steps
and discards the achieved prefix. -/
def Steps.Go (ss : Steps σ) (s : σ) : GoErr × σ :=
  let r := Steps.run ss s
  (r.2.1, r.2.2)

/-- The state reached after executing every step of `ss` in order from
`s` (ignoring errors); used to speak about which side effects happened. -/
def stateAfter (ss : Steps σ) (s : σ) : σ :=
  ss.foldl (fun st step => (step.go st).1) s

/-- The error produced by step `i` of `ss` when the sequence is started in
state `s` and the steps before `i` are executed first; `none` if `i` is out
of range or step `i` succeeds. -/
def errAt (ss : Steps σ) (s : σ) (i : Nat) : GoErr :=
  match ss[i]? with
  | some step => (step.go (stateAfter (ss.take i) s)).2
  | none => none

/-- Every step of `ss` succeeds when the sequence is run from `s`. -/
abbrev AllSucceed (ss : Steps σ) (s : σ) : Prop :=
  ∀ i, i < ss.length → errAt ss s i = none

/-- Step `i` is the first failing step of `ss` when run from `s`. -/
abbrev FirstFailAt (ss : Steps σ) (s : σ) (i : Nat) : Prop :=
  i < ss.length ∧ (∀ j, j < i → errAt ss s j = none) ∧ errAt ss s i ≠ none

/-- Structural reference runner, equal to `Steps.run` (proved below); the
recursion mirrors the loop one step at a time. -/
def runSimple : Steps σ → σ → Steps σ × GoErr × σ
  | [], s => ([], none, s)
  | step :: rest, s =>
    match step.go s with
    | (s1, some e) => ([step], some e, s1)
    | (s1, none) =>
      let r := runSimple rest s1
      (step :: r.1, r.2.1, r.2.2)

theorem runFrom_eq_aux (rest : Steps σ) : ∀ (pre : Steps σ) (s : σ),
    runFrom (pre ++ rest) rest pre.length s =
      (let r := runSimple rest s
       (if r.2.1 = none then pre ++ rest else pre ++ r.1, r.2.1, r.2.2)) := by
  induction rest with
  | nil =>
    intro pre s
    simp [runFrom, runSimple]
  | cons step rest ih =>
    intro pre s
    simp only [runFrom, runSimple]
    rcases hgo : step.go s with ⟨s1, e⟩
    cases e with
    | some msg =>
      simp only
      have hlen : pre.length + 1 = (pre ++ [step]).length := by simp
      have : pre ++ step :: rest = (pre ++ [step]) ++ rest := by simp
      rw [this, hlen, List.take_left]
      simp
    | none =>
      have hpre : pre ++ step :: rest = (pre ++ [step]) ++ rest := by simp
      have hlen : pre.length + 1 = (pre ++ [step]).length := by simp
      simp only
      rw [hpre, hlen, ih (pre ++ [step]) s1]
      rcases hrun : runSimple rest s1 with ⟨ps, r, s2⟩
      cases r <;> simp

theorem run_eq_runSimple (ss : Steps σ) (s : σ) :
    Steps.run ss s =
      (let r := runSimple ss s
       (if r.2.1 = none then ss else r.1, r.2.1, r.2.2)) := by
  have h := runFrom_eq_aux (σ := σ) ss [] s
  simpa [Steps.run] using h

theorem errAt_cons_zero (step : Step σ) (rest : Steps σ) (s : σ) :
    errAt (step :: rest) s 0 = (step.go s).2 := by
  simp [errAt, stateAfter]

theorem errAt_cons_succ (step : Step σ) (rest : Steps σ) (s : σ) (j : Nat) :
    errAt (step :: rest) s (j + 1) = errAt rest (step.go s).1 j := by
  simp [errAt, stateAfter, List.take_succ_cons]

theorem stateAfter_cons (step : Step σ) (rest : Steps σ) (s : σ) :
    stateAfter (step :: rest) s = stateAfter rest (step.go s).1 := by
  simp [stateAfter]

theorem runSimple_of_allSucceed (ss : Steps σ) :
    ∀ s, AllSucceed ss s → runSimple ss s = (ss, none, stateAfter ss s) := by
  induction ss with
  | nil => intro s _; simp [runSimple, stateAfter]
  | cons step rest ih =>
    intro s h
    have h0 : (step.go s).2 = none := by
      have := h 0 (by simp)
      rwa [errAt_cons_zero] at this
    have htail : AllSucceed rest (step.go s).1 := by
      intro i hi
      have := h (i + 1) (by simpa using Nat.succ_lt_succ hi)
      rwa [errAt_cons_succ] at this
    simp only [runSimple]
    rcases hgo : step.go s with ⟨s1, e⟩
    rw [hgo] at h0 htail
    simp only at h0
    subst h0
    simp only
    rw [ih s1 htail, stateAfter_cons, hgo]

theorem runSimple_of_firstFailAt (ss : Steps σ) :
    ∀ s i, FirstFailAt ss s i →
      runSimple ss s =
        (ss.take (i + 1), errAt ss s i, stateAfter (ss.take (i + 1)) s) := by
  induction ss with
  | nil =>
    intro s i h
    exact absurd h.1 (by simp)
  | cons step rest ih =>
    intro s i h
    obtain ⟨hlt, hbefore, hfail⟩ := h
    cases i with
    | zero =>
      rw [errAt_cons_zero] at hfail
      simp only [runSimple]
      rcases hgo : step.go s with ⟨s1, e⟩
      rw [hgo] at hfail
      cases e with
      | none => simp at hfail
      | some msg =>
        simp only
        rw [errAt_cons_zero, hgo]
        simp [stateAfter, List.take_succ_cons, hgo]
    | succ j =>
      have h0 : (step.go s).2 = none := by
        have := hbefore 0 (Nat.succ_pos j)
        rwa [errAt_cons_zero] at this
      have htail : FirstFailAt rest (step.go s).1 j := by
        refine ⟨by simpa using Nat.lt_of_succ_lt_succ hlt, ?_, ?_⟩
        · intro k hk
          have := hbefore (k + 1) (Nat.succ_lt_succ hk)
          rwa [errAt_cons_succ] at this
        · rw [← errAt_cons_succ step rest s j]
          exact hfail
      simp only [runSimple]
      rcases hgo : step.go s with ⟨s1, e⟩
      rw [hgo] at h0 htail
      simp only at h0
      subst h0
      simp only
      rw [ih s1 j htail, errAt_cons_succ, hgo]
      simp [List.take_succ_cons, stateAfter_cons, hgo]

theorem run_of_allSucceed (ss : Steps σ) (s : σ) (h : AllSucceed ss s) :
    Steps.run ss s = (ss, none, stateAfter ss s) := by
  rw [run_eq_runSimple, runSimple_of_allSucceed ss s h]
  simp

theorem run_of_firstFailAt (ss : Steps σ) (s : σ) (i : Nat)
    (h : FirstFailAt ss s i) :
    Steps.run ss s =
      (ss.take (i + 1), errAt ss s i, stateAfter (ss.take (i + 1)) s) := by
  rw [run_eq_runSimple, runSimple_of_firstFailAt ss s i h]
  rcases h with ⟨_, _, hfail⟩
  simp only
  rw [if_neg hfail]

/-- Embedding of `formatFatalSteps` (current revision):

    msg := ""
    l := len(results)
    if l > 1 { msg = "Achieved Steps:\n" + defaultConfig.Sprint(results[:l-1]) + "\n" }
    if l > 0 { msg = msg + "Failed Step:\n" + defaultConfig.Sprint(&results[l-1]) + "\n" }
    return fmt.Sprintf("%vError: %v", msg, err)

The pretty-printing library is an external collaborator, so the renderings
`defaultConfig.Sprint` of a step list and of a single step are taken as
parameters `sprintList` and `sprintStep`. -/
def formatFatalSteps (sprintList : Steps σ → String) (sprintStep : Step σ → String)
    (results : Steps σ) (err : String) : String :=
  let l := results.length
  let msg := if 1 < l then "Achieved Steps:\n" ++ sprintList (results.take (l - 1)) ++ "\n" else ""
  let msg :=
    match results.getLast? with
    | some last => msg ++ "Failed Step:\n" ++ sprintStep last ++ "\n"
    | none => msg
  msg ++ "Error: " ++ err

/-- Embedding of `func (ss Steps) Test(t *testing.T)` (current revision):
runs `ss.run()`; if the harness `t` is non-nil (`t = true`) and an error
occurred, the harness receives `t.Fatalf(formatFatalSteps(results, err))`.
The second component of the result is the fatal message delivered to the
harness, `none` when `t.Fatalf` was not called. -/
def Steps.Test (sprintList : Steps σ → String) (sprintStep : Step σ → String)
    (t : Bool) (ss : Steps σ) (s : σ) : (Steps σ × GoErr × σ) × Option String :=
  let r := Steps.run ss s
  match t, r.2.1 with
  | true, some e => (r, some (formatFatalSteps sprintList sprintStep r.1 e))
  | _, _ => (r, none)

end Argot

namespace ArgotV2

/-- Embedding of the loop body of `Steps.Test` in the older revision
(src/unnamed/part_002):

    for idx, step := range ss {
        err = step.Go()
        if err != nil { return ss[:idx], err }
    }
    return ss, nil

Note the failing return is `ss[:idx]`: unlike the current revision it does
NOT include the failing step in the returned results. -/
def TestFrom (full : Argot.Steps σ) : Argot.Steps σ → Nat → σ → Argot.Steps σ × GoErr × σ
  | [], _, s => (full, none, s)
  | step :: rest, idx, s =>
    match step.go s with
    | (s1, some e) => (full.take idx, some e, s1)
    | (s1, none) => TestFrom full rest (idx + 1) s1

/-- The results/error computation of `func (ss Steps) Test(t *testing.T)`
in the older revision (part_002); the harness handling around the loop is
the same `t.Fatalf` defer as in the current revision and is independent of
the returned results. -/
def Steps.Test (ss : Argot.Steps σ) (s : σ) : Argot.Steps σ × GoErr × σ :=
  TestFrom ss ss 0 s

end ArgotV2

/-- A concrete instrumented step for witnesses: appends its index `k` to
the state log (the side-effect counter of the spec) and returns outcome
`e`. -/
def logStep (k : Nat) (e : GoErr) : Argot.Step (List Nat) :=
  { name := "step" ++ toString k, go := fun s => (s ++ [k], e) }

/-- Three-step sample sequence whose middle step fails. -/
def sampleSteps : Argot.Steps (List Nat) :=
  [logStep 0 none, logStep 1 (some "boom"), logStep 2 none]

/-- Two-step sample sequence in which every step succeeds. -/
def sampleOkSteps : Argot.Steps (List Nat) :=
  [logStep 0 none, logStep 1 none]

/-- A step that always fails with error "nope", over a trivial state. -/
def failNope : Argot.Step Nat :=
  { name := "fail", go := fun s => (s, some "nope") }

/-- C2: if every step of `S` succeeds, `run` returns the whole of `S`, no
error, and the state reached by executing exactly the steps of `S`; if the
first failing step is at index `i`, `run` returns `S[0..i]`, the error
produced by step `i`, and the state reached by executing exactly the steps
`0..i` — in particular no step after `i` contributes any side effect. -/
theorem steps_run_short_circuit (σ : Type) (ss : Argot.Steps σ) (s : σ) :
    (Argot.AllSucceed ss s →
       Argot.Steps.run ss s = (ss, none, Argot.stateAfter ss s))
    ∧ ∀ i, Argot.FirstFailAt ss s i →
        Argot.Steps.run ss s =
          (ss.take (i + 1), Argot.errAt ss s i,
            Argot.stateAfter (ss.take (i + 1)) s) :=
  ⟨Argot.run_of_allSucceed ss s, fun i h => Argot.run_of_firstFailAt ss s i h⟩

/-- Witness for C2 at concrete inputs: the three-step sample fails first at
index 1, and `run` stops there with the log `[0, 1]`; the two-step sample
succeeds wholesale with the log `[0, 1]`. -/
theorem steps_run_short_circuit_witness :
    (Argot.FirstFailAt sampleSteps [] 1
      ∧ Argot.Steps.run sampleSteps [] =
          (sampleSteps.take 2, Argot.errAt sampleSteps [] 1,
            Argot.stateAfter (sampleSteps.take 2) []))
    ∧ (Argot.AllSucceed sampleOkSteps []
      ∧ Argot.Steps.run sampleOkSteps [] =
          (sampleOkSteps, none, Argot.stateAfter sampleOkSteps [])) :=
  ⟨⟨by decide, (steps_run_short_circuit _ sampleSteps []).2 1 (by decide)⟩,
   ⟨by decide, (steps_run_short_circuit _ sampleOkSteps []).1 (by decide)⟩⟩

/-- C1 (code bug in the part_002 revision): on a one-step sequence whose
step fails with "nope", the older `Steps.Test` returns the empty result —
`ss[:idx]` excludes the failing step, so the result's last element is not
the failing step, contradicting the claim and the doc comment above the
function — while the current revision's `Steps.run` returns `[failNope]`,
whose last element is the failing step. -/
theorem test_v2_drops_failing_step :
    ArgotV2.Steps.Test [failNope] 0 = ([], some "nope", 0)
    ∧ (ArgotV2.Steps.Test [failNope] 0).1.getLast? ≠ some failNope
    ∧ Argot.Steps.run [failNope] 0 = ([failNope], some "nope", 0)
    ∧ (Argot.Steps.run [failNope] 0).1.getLast? = some failNope := by
  refine ⟨rfl, ?_, rfl, rfl⟩
  intro h
  simp [ArgotV2.Steps.Test, ArgotV2.TestFrom, failNope] at h

/-- C9: the empty sequence succeeds trivially for every harness argument:
`Test` returns the empty result, no error, the unchanged state, and never
signals the harness. -/
theorem empty_steps_succeed (σ : Type) (sl : Argot.Steps σ → String)
    (sst : Argot.Step σ → String) (t : Bool) (s : σ) :
    Argot.Steps.Test sl sst t ([] : Argot.Steps σ) s = (([], none, s), none)
    ∧ Argot.Steps.run ([] : Argot.Steps σ) s = ([], none, s) := by
  cases t <;> exact ⟨rfl, rfl⟩

/-- C3: when a harness is supplied (`t = true`) and the run fails first at
step `i` (= `fs`, with error `e`), the harness is signaled fatally with the
formatted list of the successfully completed steps `S[0..i-1]` (present
exactly when there are any), followed by the formatted failing step,
followed by the error text. -/
theorem test_fatal_message (σ : Type) (sl : Argot.Steps σ → String)
    (sst : Argot.Step σ → String) (ss : Argot.Steps σ) (s : σ) (i : Nat)
    (fs : Argot.Step σ) (e : String) (hfail : Argot.FirstFailAt ss s i)
    (hfs : ss[i]? = some fs) (he : Argot.errAt ss s i = some e) :
    (Argot.Steps.Test sl sst true ss s).2 =
      some ((if 0 < i then "Achieved Steps:\n" ++ sl (ss.take i) ++ "\n" else "")
        ++ "Failed Step:\n" ++ sst fs ++ "\n" ++ "Error: " ++ e) := by
  have hi1 : i + 1 ≤ ss.length := hfail.1
  have hrun := Argot.run_of_firstFailAt ss s i hfail
  have hlen : (ss.take (i + 1)).length = i + 1 := by
    rw [List.length_take]
    exact Nat.min_eq_left hi1
  have htake : (ss.take (i + 1)).take i = ss.take i := by
    rw [List.take_take]
    exact congrArg (List.take · ss) (Nat.min_eq_left (Nat.le_succ i))
  have hlast : (ss.take (i + 1)).getLast? = some fs := by
    rw [List.getLast?_eq_getElem?, hlen, Nat.add_sub_cancel, List.getElem?_take,
      if_pos (Nat.lt_succ_self i), hfs]
  simp only [Argot.Steps.Test, hrun, he]
  rw [Argot.formatFatalSteps, hlen, hlast]
  simp only [Nat.add_sub_cancel, htake, Nat.lt_succ_iff, Nat.one_le_iff_ne_zero,
    ← Nat.pos_iff_ne_zero]

/-- Witness for C3 at a concrete input: the three-step sample fails at
index 1; the harness message contains the achieved step 0, the failing
step 1, and the error text. -/
theorem test_fatal_message_witness :
    Argot.FirstFailAt sampleSteps [] 1
    ∧ sampleSteps[1]? = some (logStep 1 (some "boom"))
    ∧ Argot.errAt sampleSteps [] 1 = some "boom"
    ∧ (Argot.Steps.Test (fun l => String.intercalate ", " (l.map Argot.Step.name))
        Argot.Step.name true sampleSteps ([] : List Nat)).2 =
      some ((if 0 < 1 then "Achieved Steps:\n" ++
            String.intercalate ", " ((sampleSteps.take 1).map Argot.Step.name) ++ "\n" else "")
        ++ "Failed Step:\n" ++ (logStep 1 (some "boom")).name ++ "\n" ++ "Error: " ++ "boom") :=
  ⟨by decide, rfl, by decide,
   test_fatal_message _ _ _ sampleSteps [] 1 (logStep 1 (some "boom")) "boom"
     (by decide) rfl (by decide)⟩

namespace Argot

/-- Embedding of `ExpectError` (src/stdlib.go):

    func ExpectError(step Step) *NamedStep {
        return NewNamedStep(fmt.Sprintf("ExpectError(%v)", step), func() error {
            if step.Go() == nil {
                return fmt.Errorf("Expected error from step, got %#v", nil)
            }
            return nil
        })
    }

`fmt.Sprintf("%v", step)` renders the wrapped step via its `String()`
name, and `%#v` of the untyped nil renders as `<nil>`. -/
def ExpectError (step : Step σ) : Step σ where
  name := "ExpectError(" ++ step.name ++ ")"
  go := fun s =>
    let r := step.go s
    match r.2 with
    | none => (r.1, some "Expected error from step, got <nil>")
    | some _ => (r.1, none)

end Argot

/-- C6: `ExpectError(s).Go()` succeeds iff `s.Go()` returns a non-nil
error, whichever error it is; when `s` succeeds it fails reporting that no
error was raised; and the state after running `ExpectError(s)` is exactly
the state after running `s` once — the wrapped step runs exactly once with
its side effects unaltered. -/
theorem expectError_inverts (σ : Type) (step : Argot.Step σ) (s : σ) :
    (((Argot.ExpectError step).go s).2 = none ↔ (step.go s).2 ≠ none)
    ∧ ((Argot.ExpectError step).go s).1 = (step.go s).1
    ∧ ((step.go s).2 = none →
        ((Argot.ExpectError step).go s).2 =
          some "Expected error from step, got <nil>") := by
  rcases hgo : step.go s with ⟨s1, e⟩
  cases e <;> simp [Argot.ExpectError, hgo]

/-- Witness for C6 at concrete inputs: wrapping the failing sample step
succeeds and keeps the side-effect log; wrapping a succeeding step fails
with the no-error-was-raised message. -/
theorem expectError_inverts_witness :
    (((Argot.ExpectError (logStep 1 (some "boom"))).go []).2 = none
      ↔ ((logStep 1 (some "boom")).go ([] : List Nat)).2 ≠ none)
    ∧ ((Argot.ExpectError (logStep 1 (some "boom"))).go []).1 =
        ((logStep 1 (some "boom")).go ([] : List Nat)).1
    ∧ ((logStep 0 none).go ([] : List Nat)).2 = none
    ∧ ((Argot.ExpectError (logStep 0 none)).go []).2 =
        some "Expected error from step, got <nil>" :=
  ⟨(expectError_inverts _ (logStep 1 (some "boom")) []).1,
   (expectError_inverts _ (logStep 1 (some "boom")) []).2.1,
   by decide,
   (expectError_inverts _ (logStep 0 none) []).2.2 (by decide)⟩

/-- A Go `interface{}` value as seen by `==` and `%#v`: the nil interface,
an interface wrapping a typed nil pointer (`(*T)(nil)` — non-nil as an
interface), or any other value with its `%#v` rendering.  In Go,
`actual == nil` on an interface operand holds only for the nil interface. -/
inductive GoValue where
  | nilInterface : GoValue
  | typedNilPtr (typeName : String) : GoValue
  | val (rendering : String) : GoValue
deriving DecidableEq

/-- The Go comparison `actual == nil` for an `interface{}` operand. -/
def GoValue.eqNil : GoValue → Bool
  | .nilInterface => true
  | _ => false

/-- The `fmt` `%#v` rendering of a `GoValue`. -/
def GoValue.sharpV : GoValue → String
  | .nilInterface => "<nil>"
  | .typedNilPtr t => "(*" ++ t ++ ")(nil)"
  | .val r => r

namespace Argot

/-- Embedding of `ExpectNil` (src/stdlib.go):

    func ExpectNil(actual interface{}) *NamedStep {
        return NewNamedStep("ExpectNil", func() error {
            if actual == nil { return nil }
            return fmt.Errorf("Expected %#v, got %#v", nil, actual)
        })
    }

`%#v` of the untyped nil renders as `<nil>`. -/
def ExpectNil (actual : GoValue) : Step σ where
  name := "ExpectNil"
  go := fun s =>
    if actual.eqNil then (s, none)
    else (s, some ("Expected <nil>, got " ++ actual.sharpV))

/-- Modelled from the spec: `NewStepProducer` is code of this repository
missing from src/ (only its callers in argot_test.go appear).  Spec §4.3:
a Step Producer "wraps a zero-argument factory function () -> Step. On
execution, it invokes the factory to obtain a concrete Step, then
immediately executes that Step and returns its result."  The factory is a
Go closure whose side effects are modelled by letting it read and update
the state; constructing the producer itself is a pure operation that
touches no state. -/
def NewStepProducer (factory : σ → Step σ × σ) : Step σ where
  name := "StepProducer"
  go := fun s =>
    let r := factory s
    r.1.go r.2

end Argot

/-- C10: `ExpectNil(v).Go()` succeeds iff `v` is the nil interface value
itself; the state is untouched; and for any non-nil interface value —
including a typed nil pointer — it fails with a message showing the
expected `<nil>` and the actual value. -/
theorem expectNil_only_nil_interface (σ : Type) (v : GoValue) (s : σ) :
    (((Argot.ExpectNil v).go s).2 = none ↔ v = GoValue.nilInterface)
    ∧ ((Argot.ExpectNil v).go s).1 = s
    ∧ (v ≠ GoValue.nilInterface →
        ((Argot.ExpectNil (σ := σ) v).go s).2 =
          some ("Expected <nil>, got " ++ v.sharpV)) := by
  cases v <;> simp [Argot.ExpectNil, GoValue.eqNil, GoValue.sharpV]

/-- Witness for C10 at a concrete input: an interface wrapping a nil
`*int` pointer is not the nil interface, and `ExpectNil` fails on it with
the expected-versus-actual message. -/
theorem expectNil_only_nil_interface_witness :
    GoValue.typedNilPtr "int" ≠ GoValue.nilInterface
    ∧ ((Argot.ExpectNil (σ := Unit) (GoValue.typedNilPtr "int")).go ()).2 =
        some ("Expected <nil>, got " ++ (GoValue.typedNilPtr "int").sharpV) :=
  ⟨by decide, (expectNil_only_nil_interface Unit (GoValue.typedNilPtr "int") ()).2.2 (by decide)⟩

/-- A step over an event-log state that records `tag` and returns `e`. -/
def tagStep (tag : String) (e : GoErr) : Argot.Step (List String) :=
  { name := tag, go := fun log => (log ++ [tag], e) }

/-- A factory over the event-log state that records `ftag` as its own side
effect and produces the step `st`. -/
def tagFactory (ftag : String) (st : Argot.Step (List String)) :
    List String → Argot.Step (List String) × List String :=
  fun log => (st, log ++ [ftag])

/-- C7: executing a Step Producer built from an instrumented factory
records, from any starting log, exactly one factory invocation followed
immediately by the produced step's execution, and returns the produced
step's result; the factory therefore runs exactly once per execution and
only at execution time (constructing `NewStepProducer factory` is a pure
term that cannot touch the log). -/
theorem stepProducer_factory_once (ftag stag : String) (e : GoErr)
    (log : List String) :
    (Argot.NewStepProducer (tagFactory ftag (tagStep stag e))).go log
      = (log ++ [ftag, stag], e) := by
  simp [Argot.NewStepProducer, tagFactory, tagStep]

namespace Argot

/-- The HTTP response data the embedded assertion steps consult: the status
code and the header map (`http.Header`, a map from stored keys to value
lists, embedded as an association list).  The body stream is an external
resource and is not represented. -/
structure Response where
  StatusCode : Int
  Header : List (String × List String)

/-- Embedding of the `HttpCall` struct.  The injected client capability
`Do(request) -> (response, error)` is a function field; `http.Request` is
opaque to the library and embedded as a `String` token.  `DoCount` is the
call counter on the injected client that the spec prescribes for
instrumenting idempotence. -/
structure HttpCall where
  Client : String → Except String Response
  Request : Option String
  Response : Option Response
  ResponseBody : Option String
  DoCount : Nat

/-- `NewHttpCall` with a supplied injected client (the nil-client default
merely constructs a fresh external `http.Client`). -/
def NewHttpCall (client : String → Except String Response) : HttpCall :=
  { Client := client, Request := none, Response := none,
    ResponseBody := none, DoCount := 0 }

/-- `AssertNoRequest` returns nil iff `hc.Request` is nil. -/
def HttpCall.AssertNoRequest (hc : HttpCall) : GoErr :=
  match hc.Request with
  | none => none
  | some _ => some "Request already set"

/-- `AssertRequest` returns nil iff `hc.Request` is non-nil. -/
def HttpCall.AssertRequest (hc : HttpCall) : GoErr :=
  match hc.Request with
  | none => some "No Request set"
  | some _ => none

/-- `AssertNoResponse` returns nil iff `hc.Response` is nil. -/
def HttpCall.AssertNoResponse (hc : HttpCall) : GoErr :=
  match hc.Response with
  | none => none
  | some _ => some "Response already set"

/-- Embedding of `EnsureResponse`:

    if hc.Response != nil {
        return nil
    } else if hc.Request == nil {
        return errors.New("Cannot ensure response: no request.")
    } else if response, err := hc.Client.Do(hc.Request); err != nil {
        return fmt.Errorf("Error when making call of %v: %v", hc.Request, err)
    } else {
        hc.Response = response
        return nil
    }

`DoCount` is incremented exactly where `hc.Client.Do` fires. -/
def HttpCall.EnsureResponse (hc : HttpCall) : HttpCall × GoErr :=
  match hc.Response with
  | some _ => (hc, none)
  | none =>
    match hc.Request with
    | none => (hc, some "Cannot ensure response: no request.")
    | some req =>
      match hc.Client req with
      | .error e =>
        ({ hc with DoCount := hc.DoCount + 1 },
          some ("Error when making call of " ++ req ++ ": " ++ e))
      | .ok resp =>
        ({ hc with DoCount := hc.DoCount + 1, Response := some resp }, none)

/-- Embedding of `Reset` (current revision, src/unnamed/part_001):

    hc.Request = nil
    if hc.Response != nil && hc.ResponseBody == nil {
        io.Copy(ioutil.Discard, hc.Response.Body)
        hc.Response.Body.Close()
    }
    hc.Response = nil
    hc.ResponseBody = nil
    return nil

The drain/close in the conditional touches only the external body stream
(a resource outside the embedded state); request, response and body cache
are cleared unconditionally and nil is returned. -/
def HttpCall.Reset (hc : HttpCall) : HttpCall × GoErr :=
  ({ hc with Request := none, Response := none, ResponseBody := none }, none)

end Argot

namespace ArgotV0

/-- Embedding of the older `Reset` (src/argot.go):

    hc.Request = nil
    if hc.Response != nil && hc.ResponseBody == nil {
        io.Copy(ioutil.Discard, hc.Response.Body)
        hc.Response.Body.Close()
        hc.Response = nil
    }
    hc.ResponseBody = nil
    return nil

Here `hc.Response = nil` sits INSIDE the conditional: when the body was
already received (`ResponseBody != nil`) the response is kept. -/
def Reset (hc : Argot.HttpCall) : Argot.HttpCall × GoErr :=
  let hc1 : Argot.HttpCall := { hc with Request := none }
  let hc2 : Argot.HttpCall :=
    if hc1.Response.isSome && hc1.ResponseBody.isNone
    then { hc1 with Response := none } else hc1
  ({ hc2 with ResponseBody := none }, none)

end ArgotV0

/-- C4: `EnsureResponse` is idempotent.  With a response already present it
returns nil and changes nothing (in particular the client call counter, so
no network call happens); with neither response nor request it returns a
non-nil error and changes nothing; with a request and no response it makes
exactly one client call and on success stores the response and returns
nil; and two consecutive invocations from the request-set state perform
exactly one underlying `Client.Do` call in total. -/
theorem ensureResponse_idempotent (hc : Argot.HttpCall) :
    (∀ r, hc.Response = some r → hc.EnsureResponse = (hc, none))
    ∧ (hc.Response = none → hc.Request = none →
        hc.EnsureResponse = (hc, some "Cannot ensure response: no request."))
    ∧ (∀ req, hc.Response = none → hc.Request = some req →
        (hc.EnsureResponse.1.DoCount = hc.DoCount + 1
          ∧ ∀ resp, hc.Client req = .ok resp →
              hc.EnsureResponse =
                ({ hc with Response := some resp, DoCount := hc.DoCount + 1 }, none)))
    ∧ (∀ req resp, hc.Response = none → hc.Request = some req →
        hc.Client req = .ok resp →
        (hc.EnsureResponse.1.EnsureResponse.1.DoCount = hc.DoCount + 1
          ∧ hc.EnsureResponse.1.EnsureResponse.2 = none)) := by
  refine ⟨?_, ?_, ?_, ?_⟩
  · intro r hr
    simp [Argot.HttpCall.EnsureResponse, hr]
  · intro hresp hreq
    simp [Argot.HttpCall.EnsureResponse, hresp, hreq]
  · intro req hresp hreq
    refine ⟨?_, ?_⟩
    · rcases hcl : hc.Client req with e | resp <;>
        simp [Argot.HttpCall.EnsureResponse, hresp, hreq, hcl]
    · intro resp hcl
      simp [Argot.HttpCall.EnsureResponse, hresp, hreq, hcl]
  · intro req resp hresp hreq hcl
    simp [Argot.HttpCall.EnsureResponse, hresp, hreq, hcl]

/-- A concrete response used by the witnesses: status 403 with a header
map whose stored keys are the canonical "Asdf" and "Contains". -/
def sampleResponse : Argot.Response :=
  { StatusCode := 403, Header := [("Asdf", [""]), ("Contains", ["something"])] }

/-- A concrete injected client that always succeeds with
`sampleResponse`. -/
def sampleClient : String → Except String Argot.Response :=
  fun _ => .ok sampleResponse

/-- A concrete `HttpCall` in the request-set state. -/
def sampleCall : Argot.HttpCall :=
  { Client := sampleClient, Request := some "GET /", Response := none,
    ResponseBody := none, DoCount := 0 }

/-- Witness for C4 at a concrete input: from the request-set state, two
consecutive `EnsureResponse` calls perform exactly one client call and the
second returns nil. -/
theorem ensureResponse_idempotent_witness :
    sampleCall.Response = none ∧ sampleCall.Request = some "GET /"
    ∧ sampleCall.Client "GET /" = .ok sampleResponse
    ∧ (sampleCall.EnsureResponse.1.EnsureResponse.1.DoCount = sampleCall.DoCount + 1
        ∧ sampleCall.EnsureResponse.1.EnsureResponse.2 = none) :=
  ⟨rfl, rfl, rfl,
   (ensureResponse_idempotent sampleCall).2.2.2 "GET /" sampleResponse rfl rfl rfl⟩

/-- A concrete `HttpCall` whose response exists and whose body has already
been read (`ResponseBody` non-nil). -/
def usedCall : Argot.HttpCall :=
  { Client := sampleClient, Request := some "GET /",
    Response := some sampleResponse, ResponseBody := some "body", DoCount := 1 }

/-- C5 (code bug in the src/argot.go revision): on an `HttpCall` whose
body has been read, the older `Reset` keeps the response — afterwards
`AssertNoResponse` fails, and a second `Reset` reaches a different state
than the first, contradicting the function's own "Idempotent." doc
comment — while the current revision's `Reset` (for every state) returns
nil, clears `Request`, `Response` and `ResponseBody`, makes
`AssertNoRequest` and `AssertNoResponse` succeed, and is a fixpoint under
repetition. -/
theorem reset_v0_keeps_response :
    (ArgotV0.Reset usedCall).2 = none
    ∧ (ArgotV0.Reset usedCall).1.Response = some sampleResponse
    ∧ (ArgotV0.Reset usedCall).1.AssertNoResponse = some "Response already set"
    ∧ (ArgotV0.Reset (ArgotV0.Reset usedCall).1).1.Response = none
    ∧ (∀ hc : Argot.HttpCall,
        hc.Reset = ({ hc with Request := none, Response := none,
                              ResponseBody := none }, none)
        ∧ hc.Reset.1.Reset = hc.Reset
        ∧ hc.Reset.1.AssertNoRequest = none
        ∧ hc.Reset.1.AssertNoResponse = none) :=
  ⟨rfl, rfl, rfl, rfl, fun _ => ⟨rfl, rfl, rfl, rfl⟩⟩

namespace Argot

/-- The bytes `validHeaderFieldByte` (net/textproto) accepts: the RFC 7230
token characters — digits, letters, and
`! # $ % & \x27 * + - . ^ _ \x60 | ~`. -/
def validHeaderFieldChar (c : Char) : Bool :=
  let n := c.toNat
  (48 ≤ n && n ≤ 57) || (65 ≤ n && n ≤ 90) || (97 ≤ n && n ≤ 122) ||
    (n == 33 || n == 35 || n == 36 || n == 37 || n == 38 || n == 39 ||
     n == 42 || n == 43 || n == 45 || n == 46 || n == 94 || n == 95 ||
     n == 96 || n == 124 || n == 126)

/-- One character of Go's canonicalization loop:

    if upper && 'a' <= c && c <= 'z' { c -= toLower }
    else if !upper && 'A' <= c && c <= 'Z' { c += toLower }

(`toLower` is 32); this is exactly ASCII `toUpper` when an uppercase
letter is expected and ASCII `toLower` otherwise, which are Lean core's
`Char.toUpper`/`Char.toLower`. -/
def canonChar (upper : Bool) (c : Char) : Char :=
  if upper then c.toUpper else c.toLower

/-- The canonicalization loop over the key's characters; `upper` is set
exactly after a hyphen (and initially). -/
def canonList : Bool → List Char → List Char
  | _, [] => []
  | upper, c :: rest =>
    let c1 := canonChar upper c
    c1 :: canonList (c1 == Char.ofNat 45) rest

/-- Embedding of `textproto.CanonicalMIMEHeaderKey`: if any byte of the
key is not a valid header-field byte the key is returned unchanged;
otherwise the first letter and every letter following a hyphen are
uppercased and all other letters lowercased. -/
def CanonicalMIMEHeaderKey (s : String) : String :=
  if s.toList.all validHeaderFieldChar then String.mk (canonList true s.toList) else s

/-- Embedding of `http.Header.Get` (via `textproto.MIMEHeader.Get`):
canonicalize the key, look it up in the map, and return the first stored
value, or "" when the key is absent or has no values. -/
def headerGet (h : List (String × List String)) (key : String) : String :=
  match h.find? (fun p => p.1 == CanonicalMIMEHeaderKey key) with
  | some (_, v :: _) => v
  | _ => ""

/-- The raw map membership test `_, found := hc.Response.Header[key]`:
case-sensitive on the key exactly as stored. -/
def headerHasRawKey (h : List (String × List String)) (key : String) : Bool :=
  h.any (fun p => p.1 == key)

/-- `strings.Contains`: `sub` occurs as a contiguous substring. -/
def strContainsAux (sub : List Char) : List Char → Bool
  | [] => sub.isEmpty
  | c :: rest => sub.isPrefixOf (c :: rest) || strContainsAux sub rest

/-- `strings.Contains(s, sub)`. -/
def strContains (s sub : String) : Bool :=
  strContainsAux sub.toList s.toList

/-- Action of the `ResponseHeaderExists` step: ensure a response, then
test the raw header map for the key.  (The Go constructor wraps this
action in a `NamedStep`; the name has no semantic effect.) -/
def HttpCall.ResponseHeaderExists (hc : HttpCall) (key : String) : HttpCall × GoErr :=
  match hc.EnsureResponse with
  | (hc1, some e) => (hc1, some e)
  | (hc1, none) =>
    match hc1.Response with
    | some r =>
      if headerHasRawKey r.Header key then (hc1, none)
      else (hc1, some ("Header \x27" ++ key ++ "\x27 not found."))
    | none => (hc1, none)

/-- Action of the `ResponseHeaderNotExists` step: ensure a response, then
test the raw header map for absence of the key. -/
def HttpCall.ResponseHeaderNotExists (hc : HttpCall) (key : String) : HttpCall × GoErr :=
  match hc.EnsureResponse with
  | (hc1, some e) => (hc1, some e)
  | (hc1, none) =>
    match hc1.Response with
    | some r =>
      if headerHasRawKey r.Header key
      then (hc1, some ("Header \x27" ++ key ++ "\x27 found."))
      else (hc1, none)
    | none => (hc1, none)

/-- Action of the `ResponseHeaderEquals` step: ensure a response, then
compare `hc.Response.Header.Get(key)` with `value` exactly; the failure
message renders the injected string-diff capability `diff`. -/
def HttpCall.ResponseHeaderEquals (hc : HttpCall) (diff : String → String → String)
    (key value : String) : HttpCall × GoErr :=
  match hc.EnsureResponse with
  | (hc1, some e) => (hc1, some e)
  | (hc1, none) =>
    match hc1.Response with
    | some r =>
      let header := headerGet r.Header key
      if header == value then (hc1, none)
      else (hc1, some ("Header: \x27" ++ key ++ "\x27: Diff: \x27" ++
        diff value header ++ "\x27."))
    | none => (hc1, none)

/-- Action of the `ResponseHeaderContains` step: ensure a response, then
test `strings.Contains(hc.Response.Header.Get(key), value)`. -/
def HttpCall.ResponseHeaderContains (hc : HttpCall) (key value : String) : HttpCall × GoErr :=
  match hc.EnsureResponse with
  | (hc1, some e) => (hc1, some e)
  | (hc1, none) =>
    match hc1.Response with
    | some r =>
      let header := headerGet r.Header key
      if strContains header value then (hc1, none)
      else (hc1, some ("Header \x27" ++ key ++ "\x27: Expected \x27" ++ value ++
        "\x27; found \x27" ++ header ++ "\x27."))
    | none => (hc1, none)

/-- ASCII-case-insensitive equality of character lists. -/
def eqIgnoreCaseList : List Char → List Char → Bool
  | [], [] => true
  | c :: cs, d :: ds => (c.toLower == d.toLower) && eqIgnoreCaseList cs ds
  | _, _ => false

/-- Two strings differ at most in ASCII letter case. -/
def EqIgnoreAsciiCase (s t : String) : Bool :=
  eqIgnoreCaseList s.toList t.toList

theorem char_toNat_ofNat_valid (n : Nat) (h : n.isValidChar) :
    (Char.ofNat n).toNat = n := by
  rw [Char.ofNat, dif_pos h]
  rfl

theorem toUpper_toLower (c : Char) : c.toLower.toUpper = c.toUpper := by
  by_cases h : c.toNat ≥ 65 ∧ c.toNat ≤ 90
  · have hl : c.toLower = Char.ofNat (c.toNat + 32) := by
      simp only [Char.toLower]
      rw [if_pos h]
    have ht : (Char.ofNat (c.toNat + 32)).toNat = c.toNat + 32 :=
      char_toNat_ofNat_valid _ (Or.inl (by omega))
    rw [hl]
    simp only [Char.toUpper, ht]
    rw [if_pos (show c.toNat + 32 ≥ 97 ∧ c.toNat + 32 ≤ 122 by omega),
      if_neg (show ¬(c.toNat ≥ 97 ∧ c.toNat ≤ 122) by omega),
      Nat.add_sub_cancel, Char.ofNat_toNat]
  · have hl : c.toLower = c := by
      simp only [Char.toLower]
      rw [if_neg h]
    rw [hl]

theorem canonChar_congr (u : Bool) (c d : Char) (h : c.toLower = d.toLower) :
    canonChar u c = canonChar u d := by
  cases u with
  | false => simpa [canonChar] using h
  | true =>
    simp only [canonChar, if_pos]
    rw [← toUpper_toLower c, ← toUpper_toLower d, h]

theorem canonList_congr : ∀ (l₁ l₂ : List Char),
    eqIgnoreCaseList l₁ l₂ = true → ∀ u, canonList u l₁ = canonList u l₂
  | [], [], _, _ => rfl
  | [], _ :: _, h, _ => by simp [eqIgnoreCaseList] at h
  | _ :: _, [], h, _ => by simp [eqIgnoreCaseList] at h
  | c :: cs, d :: ds, h, u => by
    simp only [eqIgnoreCaseList, Bool.and_eq_true, beq_iff_eq] at h
    obtain ⟨hc, ht⟩ := h
    have hcan : canonChar u c = canonChar u d := canonChar_congr u c d hc
    simp only [canonList, hcan]
    rw [canonList_congr cs ds ht]

theorem canonicalKey_congr (k₁ k₂ : String)
    (h₁ : k₁.toList.all validHeaderFieldChar = true)
    (h₂ : k₂.toList.all validHeaderFieldChar = true)
    (h : EqIgnoreAsciiCase k₁ k₂ = true) :
    CanonicalMIMEHeaderKey k₁ = CanonicalMIMEHeaderKey k₂ := by
  unfold CanonicalMIMEHeaderKey
  rw [if_pos h₁, if_pos h₂, canonList_congr _ _ h true]

theorem headerGet_congr (h : List (String × List String)) (k₁ k₂ : String)
    (hk : CanonicalMIMEHeaderKey k₁ = CanonicalMIMEHeaderKey k₂) :
    headerGet h k₁ = headerGet h k₂ := by
  unfold headerGet
  rw [hk]

end Argot

/-- C8: with a response present, the "contains"/"equals" header checks go
through the canonicalizing accessor `Header.Get`, so two token keys that
differ only in ASCII letter case produce the same lookup value and the
same success or failure; the exists/not-exists checks consult the raw
header map and are case-sensitive on the key exactly as stored. -/
theorem header_lookup_case_sensitivity (hc : Argot.HttpCall) (r : Argot.Response)
    (diff : String → String → String) (hr : hc.Response = some r) :
    (∀ k₁ k₂ v, k₁.toList.all Argot.validHeaderFieldChar = true →
        k₂.toList.all Argot.validHeaderFieldChar = true →
        Argot.EqIgnoreAsciiCase k₁ k₂ = true →
        (Argot.headerGet r.Header k₁ = Argot.headerGet r.Header k₂
          ∧ (((hc.ResponseHeaderContains k₁ v).2 = none)
              ↔ ((hc.ResponseHeaderContains k₂ v).2 = none))
          ∧ (((hc.ResponseHeaderEquals diff k₁ v).2 = none)
              ↔ ((hc.ResponseHeaderEquals diff k₂ v).2 = none))))
    ∧ (∀ k, ((hc.ResponseHeaderExists k).2 = none)
        ↔ Argot.headerHasRawKey r.Header k = true)
    ∧ (∀ k, ((hc.ResponseHeaderNotExists k).2 = none)
        ↔ Argot.headerHasRawKey r.Header k = false) := by
  have hens : hc.EnsureResponse = (hc, none) := by
    simp [Argot.HttpCall.EnsureResponse, hr]
  refine ⟨?_, ?_, ?_⟩
  · intro k₁ k₂ v h₁ h₂ hcase
    have hget : Argot.headerGet r.Header k₁ = Argot.headerGet r.Header k₂ :=
      Argot.headerGet_congr r.Header k₁ k₂ (Argot.canonicalKey_congr k₁ k₂ h₁ h₂ hcase)
    refine ⟨hget, ?_, ?_⟩
    · simp only [Argot.HttpCall.ResponseHeaderContains, hens, hr, hget]
      cases Argot.strContains (Argot.headerGet r.Header k₂) v <;> simp
    · simp only [Argot.HttpCall.ResponseHeaderEquals, hens, hr, hget]
      cases Argot.headerGet r.Header k₂ == v <;> simp
  · intro k
    simp only [Argot.HttpCall.ResponseHeaderExists, hens, hr]
    cases Argot.headerHasRawKey r.Header k <;> simp
  · intro k
    simp only [Argot.HttpCall.ResponseHeaderNotExists, hens, hr]
    cases Argot.headerHasRawKey r.Header k <;> simp

/-- A concrete `HttpCall` already holding `sampleResponse`. -/
def respCall : Argot.HttpCall :=
  { Client := sampleClient, Request := some "GET /",
    Response := some sampleResponse, ResponseBody := none, DoCount := 1 }

/-- Witness for C8 at concrete inputs: "contains" and "CONTAINS" differ
only in case, both canonicalize to the stored key "Contains", and the
contains-check gives the same outcome for both; the raw exists-check
distinguishes the stored key "Asdf" from its recasing "asDF". -/
theorem header_lookup_case_sensitivity_witness :
    ("contains".toList.all Argot.validHeaderFieldChar = true
      ∧ "CONTAINS".toList.all Argot.validHeaderFieldChar = true
      ∧ Argot.EqIgnoreAsciiCase "contains" "CONTAINS" = true)
    ∧ Argot.headerGet sampleResponse.Header "contains" =
        Argot.headerGet sampleResponse.Header "CONTAINS"
    ∧ (((respCall.ResponseHeaderContains "contains" "eth").2 = none)
        ↔ ((respCall.ResponseHeaderContains "CONTAINS" "eth").2 = none))
    ∧ (((respCall.ResponseHeaderExists "Asdf").2 = none)
        ↔ Argot.headerHasRawKey sampleResponse.Header "Asdf" = true)
    ∧ (((respCall.ResponseHeaderExists "asDF").2 = none)
        ↔ Argot.headerHasRawKey sampleResponse.Header "asDF" = true)
    ∧ Argot.headerHasRawKey sampleResponse.Header "Asdf" = true
    ∧ Argot.headerHasRawKey sampleResponse.Header "asDF" = false :=
  ⟨⟨by decide, by decide, by decide⟩,
   ((header_lookup_case_sensitivity respCall sampleResponse
       (fun a b => a ++ " / " ++ b) rfl).1 "contains" "CONTAINS" "eth"
       (by decide) (by decide) (by decide)).1,
   ((header_lookup_case_sensitivity respCall sampleResponse
       (fun a b => a ++ " / " ++ b) rfl).1 "contains" "CONTAINS" "eth"
       (by decide) (by decide) (by decide)).2.1,
   (header_lookup_case_sensitivity respCall sampleResponse
       (fun a b => a ++ " / " ++ b) rfl).2.1 "Asdf",
   (header_lookup_case_sensitivity respCall sampleResponse
       (fun a b => a ++ " / " ++ b) rfl).2.1 "asDF",
   by decide, by decide⟩
